import Mathlib

/-!
Shallow embedding of the step-sequencer core of the `clarity` repository
(`src/sequencer.js` and the audio-engine file): token/pattern parser,
step scheduler with per-track tie tables, and the synthesis-engine
stop/distortion helpers.  Machine floats of the source are modelled by
`ℚ`/`ℝ`; a note's frequency is represented through its MIDI number
(`NoteEvent.midi`) with the real-valued frequency given by `freqOfMidi`.
String scanning is done on `List Char` (the character data of the
JavaScript strings) so that every definition is executable.
-/

namespace Clarity

/-- `slideTo` payload: `{ noteName, frequency, velocity }` from
`_parseSingleNote`; the frequency is represented by its MIDI number. -/
structure SlideTarget where
  noteName : String
  midi : Int
  velocity : Nat
deriving DecidableEq, Repr

/-- A parsed note voice: `{ noteName, frequency, velocity, gate, tie, slideTo }`
from `_parseNoteWithModifiers` (frequency represented by its MIDI number). -/
structure NoteEvent where
  noteName : String
  midi : Int
  velocity : Nat
  gate : Nat
  tie : Bool
  slideTo : Option SlideTarget
deriving DecidableEq, Repr

/-- A step: `{ type: 'rest'|'note'|'chord', ... }` from `_parseStep`. -/
inductive Step where
  | rest
  | note (n : NoteEvent)
  | chord (notes : List NoteEvent)
deriving DecidableEq, Repr

/-- `[a-g]` with the `/i` flag: ASCII letters a–g in either case. -/
def isNoteLetter (c : Char) : Bool :=
  'a' ≤ c.toLower && c.toLower ≤ 'g'

/-- `[#b]` with the `/i` flag: the accidental characters `#`, `b`, `B`. -/
def isAccidentalChar (c : Char) : Bool :=
  c = '#' || c = 'b' || c = 'B'

/-- `noteMap = { c: 0, d: 2, e: 4, f: 5, g: 7, a: 9, b: 11 }` in
`_noteToFrequency` (looked up on the lowercased letter). -/
def noteMap (c : Char) : Int :=
  if c = 'c' then 0
  else if c = 'd' then 2
  else if c = 'e' then 4
  else if c = 'f' then 5
  else if c = 'g' then 7
  else if c = 'a' then 9
  else if c = 'b' then 11
  else 0

/-- The MIDI number computed by `_noteToFrequency`:
`semitone` from `noteMap`, `+1` when the accidental is exactly `'#'`,
`-1` when it is exactly `'b'` (the comparison in the source is
case-sensitive, so an uppercase `'B'` accidental adjusts nothing), and
`midiNote = (octave + 1) * 12 + semitone`. -/
def noteToMidi (letter : Char) (accidental : Option Char) (octave : Nat) : Int :=
  let s0 := noteMap letter.toLower
  let s1 := if accidental = some '#' then s0 + 1 else s0
  let s2 := if accidental = some 'b' then s1 - 1 else s1
  ((octave : Int) + 1) * 12 + s2

/-- `parseInt` on a non-empty digit string. -/
def digitsToNat (ds : List Char) : Nat :=
  ds.foldl (fun n c => n * 10 + (c.toNat - '0'.toNat)) 0

/-- Matches the leading `([a-g][#b]?\d)` group of the note regex,
returning the letter, the optional accidental character as matched,
the octave digit, and the remaining characters.  The optional
accidental is taken exactly when an accidental character is followed by
a digit (the regex backtracks otherwise). -/
def matchNoteHead (cs : List Char) : Option (Char × Option Char × Char × List Char) :=
  match cs with
  | [] => none
  | c :: rest =>
    if !isNoteLetter c then none
    else
      match rest with
      | a :: d :: rest2 =>
        if isAccidentalChar a && d.isDigit then some (c, some a, d, rest2)
        else if a.isDigit then some (c, none, a, d :: rest2)
        else none
      | [a] => if a.isDigit then some (c, none, a, []) else none
      | [] => none

/-- Matches the optional `(?:@(\d+))?` velocity group. A lone `@` with no
digits makes the whole token fail (nothing else can consume the `@`). -/
def matchVelocity (cs : List Char) : Option (Option Nat × List Char) :=
  match cs with
  | '@' :: rest =>
    let ds := rest.takeWhile Char.isDigit
    let rest2 := rest.dropWhile Char.isDigit
    if ds.isEmpty then none else some (some (digitsToNat ds), rest2)
  | _ => some (none, cs)

/-- Matches the optional `(?::(\d+))?` gate group. -/
def matchGate (cs : List Char) : Option (Option Nat × List Char) :=
  match cs with
  | ':' :: rest =>
    let ds := rest.takeWhile Char.isDigit
    let rest2 := rest.dropWhile Char.isDigit
    if ds.isEmpty then none else some (some (digitsToNat ds), rest2)
  | _ => some (none, cs)

/-- Matches the trailing `([~])?$`: optional tie marker, then end of token. -/
def matchTieEnd (cs : List Char) : Option Bool :=
  match cs with
  | [] => some false
  | ['~'] => some true
  | _ => none

/-- `_parseNoteWithModifiers(token)`: the regex
`^([a-g][#b]?\d)(?:@(\d+))?(?::(\d+))?([~])?$/i`, then `noteName` is the
lowercased note string, velocity/gate default to 100, `tie` to the
presence of `~`, and `slideTo` is `null`. -/
def parseNoteWithModifiers (token : String) : Option NoteEvent :=
  match matchNoteHead token.data with
  | none => none
  | some (letter, acc, digit, rest) =>
    match matchVelocity rest with
    | none => none
    | some (vel, rest2) =>
      match matchGate rest2 with
      | none => none
      | some (gate, rest3) =>
        match matchTieEnd rest3 with
        | none => none
        | some tie =>
          let accList := match acc with
            | some a => [a.toLower]
            | none => []
          some { noteName := String.mk (letter.toLower :: accList ++ [digit]),
                 midi := noteToMidi letter acc (digit.toNat - '0'.toNat),
                 velocity := vel.getD 100,
                 gate := gate.getD 100,
                 tie := tie,
                 slideTo := none }

/-- The lazy split of `^(.+?)>(.+)$`: the first `>` with at least one
character before it and at least one after it. -/
def slideSplitAux : List Char → List Char → Option (String × String)
  | _, [] => none
  | left, c :: rest =>
    if c = '>' ∧ left ≠ [] ∧ rest ≠ [] then
      some (String.mk left.reverse, String.mk rest)
    else slideSplitAux (c :: left) rest

/-- Split a token at the first feasible `>` (the slide regex
`^(.+?)>(.+)$` of `_parseSingleNote`). -/
def slideSplit (token : String) : Option (String × String) :=
  slideSplitAux [] token.data

/-- `_parseSingleNote(token)`: a slide token parses both sides and forces
`tie = true`, `gate = 100`, carrying the target's name/frequency/velocity
in `slideTo`; otherwise the token is a plain note. -/
def parseSingleNote (token : String) : Option NoteEvent :=
  match slideSplit token with
  | some (fromStr, toStr) =>
    match parseNoteWithModifiers fromStr, parseNoteWithModifiers toStr with
    | some fromNote, some toNote =>
      some { fromNote with
               tie := true,
               gate := 100,
               slideTo := some ⟨toNote.noteName, toNote.midi, toNote.velocity⟩ }
    | _, _ => none
  | none => parseNoteWithModifiers token

/-- Split a character list on every occurrence of `sep`
(JavaScript `String.prototype.split` with a character separator:
empty pieces are kept). -/
def splitOnChar (sep : Char) (cs : List Char) : List (List Char) :=
  match cs with
  | [] => [[]]
  | c :: rest =>
    let r := splitOnChar sep rest
    if c = sep then [] :: r
    else match r with
      | [] => [[c]]
      | p :: ps => (c :: p) :: ps

/-- JavaScript `String.prototype.trim` on character data. -/
def trimChars (cs : List Char) : List Char :=
  ((cs.dropWhile Char.isWhitespace).reverse.dropWhile Char.isWhitespace).reverse

/-- `_parseStep(token)`: `-` is a rest; a token in square brackets is a
chord whose inner content is split on `,`, each piece trimmed and parsed
as a single note, invalid pieces dropped, and an empty result degrades to
a rest; otherwise a single note, with a parse failure degrading to a rest. -/
def parseStep (token : String) : Step :=
  if token = "-" then .rest
  else if token.data.head? = some '[' ∧ token.data.getLast? = some ']' then
    let inner := (token.data.drop 1).dropLast
    let noteTokens := splitOnChar ',' inner
    let notes := (noteTokens.map (fun t => parseSingleNote (String.mk (trimChars t)))).reduceOption
    if notes = [] then .rest else .chord notes
  else
    match parseSingleNote token with
    | none => .rest
    | some n => .note n

/-- A track: `{ oscillator, steps }` (`oscillator` is `null` for the
backwards-compatible standalone `sequence` form). -/
structure Track where
  oscillator : Option String
  steps : List Step
deriving DecidableEq, Repr

/-- The value returned by `parse`: `{ bpm, swing, tracks }`. -/
structure ParseResult where
  bpm : Nat
  swing : Nat
  tracks : List Track
deriving DecidableEq, Repr

/-- Case-insensitive keyword prefix match; returns the characters after
the keyword. -/
def stripKeyword : List Char → List Char → Option (List Char)
  | [], cs => some cs
  | _ :: _, [] => none
  | k :: ks, c :: cs => if c.toLower = k.toLower then stripKeyword ks cs else none

/-- `^<keyword>\s+(.+)$` with the `/i` flag on an already-trimmed line:
the keyword, at least one whitespace character, then a non-empty payload. -/
def matchKeywordLine (keyword line : String) : Option String :=
  match stripKeyword keyword.data line.data with
  | none => none
  | some cs =>
    let ws := cs.takeWhile Char.isWhitespace
    let rest := cs.dropWhile Char.isWhitespace
    if ws = [] ∨ rest = [] then none else some (String.mk rest)

/-- `^bpm\s+(\d+)$/i`: the payload must be all digits. -/
def matchBpmLine (line : String) : Option Nat :=
  match matchKeywordLine "bpm" line with
  | none => none
  | some payload =>
    if payload.data ≠ [] ∧ payload.data.all Char.isDigit
    then some (digitsToNat payload.data) else none

/-- `^swing\s+(\d+)$/i`, likewise. -/
def matchSwingLine (line : String) : Option Nat :=
  match matchKeywordLine "swing" line with
  | none => none
  | some payload =>
    if payload.data ≠ [] ∧ payload.data.all Char.isDigit
    then some (digitsToNat payload.data) else none

/-- `.split(/\s+/)` on an already-trimmed string: the whitespace-separated
words. -/
def splitWsAux : List Char → List Char → List String
  | acc, [] => if acc = [] then [] else [String.mk acc.reverse]
  | acc, c :: rest =>
    if c.isWhitespace then
      if acc = [] then splitWsAux [] rest
      else String.mk acc.reverse :: splitWsAux [] rest
    else splitWsAux (c :: acc) rest

def splitWs (s : String) : List String := splitWsAux [] s.data

/-- Parser state while folding over the lines of `parse`:
`revTracks` holds the tracks in reverse order; `hasCurrent` records
whether `currentTrack` is non-null (it then aliases the head of
`revTracks`, as the JavaScript object pushed into `tracks` is mutated
in place by a later `sequence` line). -/
structure ParserSt where
  bpm : Nat
  swing : Nat
  revTracks : List Track
  hasCurrent : Bool
deriving DecidableEq, Repr

/-- The `sequence` branch of the line loop: when a track is open
(`currentTrack` non-null, aliasing the head of `revTracks`), its steps
are overwritten in place; otherwise a standalone track with a `null`
oscillator is pushed (and `currentTrack` stays null). -/
def applySequenceLine (st : ParserSt) (steps : List Step) : ParserSt :=
  if st.hasCurrent then
    match st.revTracks with
    | t :: ts => { st with revTracks := { t with steps := steps } :: ts }
    | [] => st
  else { st with revTracks := ⟨none, steps⟩ :: st.revTracks }

/-- The regex cascade of the line loop of `parse`: try `bpm`, `swing`
(clamped to 0–100), `oscillator` (opens a track), and `sequence` in
order; an unrecognized line is skipped. -/
def parseDirectiveLine (st : ParserSt) (trimmed : String) : ParserSt :=
  match matchBpmLine trimmed with
  | some v => { st with bpm := v }
  | none =>
  match matchSwingLine trimmed with
  | some v => { st with swing := Nat.max 0 (Nat.min 100 v) }
  | none =>
  match matchKeywordLine "oscillator" trimmed with
  | some payload =>
    { st with revTracks := ⟨some (String.mk (trimChars payload.data)), []⟩ :: st.revTracks,
              hasCurrent := true }
  | none =>
  match matchKeywordLine "sequence" trimmed with
  | some payload =>
    applySequenceLine st ((splitWs (String.mk (trimChars payload.data))).map parseStep)
  | none => st

/-- One iteration of the line loop of `parse`: trim, skip blank and `#`
lines, then run the directive cascade. -/
def parseLine (st : ParserSt) (line : String) : ParserSt :=
  let trimmed := String.mk (trimChars line.data)
  if trimmed = "" ∨ trimmed.data.head? = some '#' then st
  else parseDirectiveLine st trimmed

/-- `parse(text)`: split on newline, fold the line parser over the lines
starting from the defaults `bpm = 120`, `swing = 50`. -/
def parse (text : String) : ParseResult :=
  let lines := (splitOnChar '\n' text.data).map String.mk
  let st := lines.foldl parseLine ⟨120, 50, [], false⟩
  ⟨st.bpm, st.swing, st.revTracks.reverse⟩

/-- `maxSteps = Math.max(...tracks.map(t => t.steps.length), 0)`. -/
def maxStepsOf (tracks : List Track) : Nat :=
  (tracks.map (fun t => t.steps.length)).foldl Nat.max 0

/-! ### Step scheduler (`_playCurrentStep`, `play`, `setBpm`) -/

/-- A track's `Map<noteName, noteId>` of active (tied) voices, in
insertion order with unique keys. -/
abbrev NoteTable := List (String × Nat)

/-- `_getStepNotes(step)`. -/
def getStepNotes : Step → List NoteEvent
  | .rest => []
  | .chord ns => ns
  | .note n => [n]

/-- The `Map` built by inserting the notes of a step keyed by name,
looked up at `name`: later notes of the same name overwrite earlier
ones, so the lookup yields the last one. -/
def lastByName (ns : List NoteEvent) (name : String) : Option NoteEvent :=
  (ns.filter (fun n => n.noteName = name)).getLast?

/-- `shouldContinue = prevNote?.tie && currentNote`. -/
def shouldContinue (prevNotes curNotes : List NoteEvent) (name : String) : Bool :=
  (match lastByName prevNotes name with
   | some p => p.tie
   | none => false) && (lastByName curNotes name).isSome

/-- A synthesis-engine command issued by the scheduler:
`triggerNote(frequency, noteName, noteDuration, oscillator, midiVelocity,
tie, slideTo)` returning the handle `id`, or `stopNote(id)`.  The
`noteDuration` argument is determined by the step duration and the
note's gate (see `noteDuration`). -/
inductive SeqEvent where
  | start (note : NoteEvent) (id : Nat) (midiVelocity : Nat) (oscillator : Option String)
  | stop (id : Nat)
deriving DecidableEq, Repr

/-- `Math.round((velocity / 100) * 127)` (round half towards `+∞`,
velocities are non-negative). -/
def midiVelocity (velocity : Nat) : Nat :=
  (254 * velocity + 100) / 200

/-- `noteDuration = stepDuration * (note.gate / 100) * 0.9`. -/
def noteDuration (stepDuration : ℚ) (gate : Nat) : ℚ :=
  stepDuration * ((gate : ℚ) / 100) * (9 / 10)

/-- `stepDuration = (60 / this.bpm) * 1000 / 4` (ms per 16th note). -/
def stepDurationOf (bpm : Nat) : ℚ :=
  60 / (bpm : ℚ) * 1000 / 4

/-- The stop half of a tick (`_playCurrentStep`): walk the track's active
map in insertion order; a voice continues iff the previous step's voice
of that name was tied and the current step has a voice of that name;
otherwise emit a stop for its handle and delete the entry. -/
def stopPhase (prevNotes curNotes : List NoteEvent) :
    NoteTable → List SeqEvent × NoteTable
  | [] => ([], [])
  | e :: rest =>
    let r := stopPhase prevNotes curNotes rest
    if shouldContinue prevNotes curNotes e.1 then (r.1, e :: r.2)
    else (SeqEvent.stop e.2 :: r.1, r.2)

/-- The start half of a tick: walk `currentNotes` in order; skip a note
whose name is already in the table (tie continuation); otherwise call
`triggerNote` (modelled by a fresh handle from the counter) and, when
the note is tied, record the handle under its name. -/
def startPhase (osc : Option String) :
    NoteTable → Nat → List NoteEvent → List SeqEvent × NoteTable × Nat
  | table, nextId, [] => ([], table, nextId)
  | table, nextId, n :: rest =>
    if (table.lookup n.noteName).isSome then startPhase osc table nextId rest
    else
      let ev := SeqEvent.start n nextId (midiVelocity n.velocity) osc
      let table' := if n.tie then table ++ [(n.noteName, nextId)] else table
      let r := startPhase osc table' (nextId + 1) rest
      (ev :: r.1, r.2)

/-- `steps[i]` when in range, else a rest (a track shorter than the
cursor rests). -/
def trackStepAt (steps : List Step) (i : Nat) : Step :=
  (steps.get? i).getD .rest

/-- The previous step used for tie checking:
`currentStep > 0 && currentStep - 1 < steps.length ? steps[currentStep-1] : rest`. -/
def prevStepAt (steps : List Step) (i : Nat) : Step :=
  if 0 < i then (steps.get? (i - 1)).getD .rest else .rest

/-- One tick of one track inside `_playCurrentStep`: resolve current and
previous notes, run the stop phase, then the start phase. -/
def tickTrack (track : Track) (i : Nat) (table : NoteTable) (nextId : Nat) :
    List SeqEvent × NoteTable × Nat :=
  let curNotes := getStepNotes (trackStepAt track.steps i)
  let prevNotes := getStepNotes (prevStepAt track.steps i)
  let s := stopPhase prevNotes curNotes table
  let r := startPhase track.oscillator s.2 nextId curNotes
  (s.1 ++ r.1, r.2)

/-- `track.oscillator || '_default'`. -/
def trackKey (t : Track) : String := t.oscillator.getD "_default"

/-- `this.activeNotes.get(key)` after the lazy `set(key, new Map())`. -/
def getTable (m : List (String × NoteTable)) (k : String) : NoteTable :=
  (m.lookup k).getD []

/-- `Map.set`: overwrite in place, else append. -/
def setTable (m : List (String × NoteTable)) (k : String) (v : NoteTable) :
    List (String × NoteTable) :=
  if (m.lookup k).isSome then m.map (fun e => if e.1 = k then (k, v) else e)
  else m ++ [(k, v)]

/-- The per-track loop of `_playCurrentStep` over all tracks at step `i`. -/
def playTracks (i : Nat) :
    List Track → List (String × NoteTable) → Nat →
    List SeqEvent × List (String × NoteTable) × Nat
  | [], m, nid => ([], m, nid)
  | t :: ts, m, nid =>
    let r := tickTrack t i (getTable m (trackKey t)) nid
    let m' := setTable m (trackKey t) r.2.1
    let rest := playTracks i ts m' r.2.2
    (r.1 ++ rest.1, rest.2)

/-- Scheduler state (`Sequencer` fields; `intervalBpm` records the bpm
captured by the running interval's closure, so the live timer interval
is `stepDurationOf` of it; `nextId` is the fresh-handle counter standing
for the opaque ids returned by `triggerNote`). -/
structure SeqState where
  bpm : Nat
  swing : Nat
  tracks : List Track
  currentStep : Nat
  maxSteps : Nat
  isPlaying : Bool
  intervalBpm : Option Nat
  activeNotes : List (String × NoteTable)
  nextId : Nat
deriving DecidableEq, Repr

/-- The timer interval (ms) of the running interval, if any. -/
def intervalMs (st : SeqState) : Option ℚ :=
  st.intervalBpm.map stepDurationOf

/-- `_startInterval()`: capture `stepDuration` from the current bpm,
(re)start the timer at that interval, and play the current step
immediately. -/
def startInterval (st : SeqState) : List SeqEvent × SeqState :=
  let st1 := { st with intervalBpm := some st.bpm }
  let r := playTracks st1.currentStep st1.tracks st1.activeNotes st1.nextId
  (r.1, { st1 with activeNotes := r.2.1, nextId := r.2.2 })

/-- The `setInterval` callback: advance the cyclic cursor, then play. -/
def intervalTick (st : SeqState) : List SeqEvent × SeqState :=
  let st1 := { st with currentStep := (st.currentStep + 1) % st.maxSteps }
  let r := playTracks st1.currentStep st1.tracks st1.activeNotes st1.nextId
  (r.1, { st1 with activeNotes := r.2.1, nextId := r.2.2 })

/-- `play(triggerNote, stopNote)`: ignore when already playing or no
tracks; otherwise reset the cursor and the active maps and start the
interval. -/
def play (st : SeqState) : List SeqEvent × SeqState :=
  if st.isPlaying ∨ st.tracks = [] then ([], st)
  else startInterval { st with isPlaying := true, currentStep := 0, activeNotes := [] }

/-- `setBpm(newBpm)`: store the bpm; when playing, restart the interval
(which replays the current step). -/
def setBpm (st : SeqState) (newBpm : Nat) : List SeqEvent × SeqState :=
  let st1 := { st with bpm := newBpm }
  if st1.isPlaying then startInterval st1 else ([], st1)

/-- The state produced by loading a `parse` result into the sequencer
(`this.bpm/swing/tracks/maxSteps` assignments at the end of `parse`). -/
def loadedState (r : ParseResult) : SeqState :=
  { bpm := r.bpm, swing := r.swing, tracks := r.tracks,
    currentStep := 0, maxSteps := maxStepsOf r.tracks, isPlaying := false,
    intervalBpm := none, activeNotes := [], nextId := 0 }

/-- A track whose steps were produced by mapping the token parser. -/
def stepsFromTokens (tr : Track) : Prop :=
  ∃ tokens : List String, tr.steps = tokens.map parseStep

/-! ### Frequency (`_noteToFrequency`) -/

/-- `440 * Math.pow(2, (midiNote - 69) / 12)`, over the reals. -/
noncomputable def freqOfMidi (midi : Int) : ℝ :=
  440 * (2 : ℝ) ^ ((((midi : ℝ)) - 69) / 12)

/-! ### Voice synthesis engine: `NoteInstance.stop` -/

/-- A gain node owned by a voice: the master `noteGain` or the `i`-th
oscillator layer's envelope gain. -/
inductive GainRef where
  | noteGain
  | envGain (i : Nat)
deriving DecidableEq, Repr

/-- A Web Audio command issued on the voice's nodes.  `disconnect` is
part of the node API but is never issued by `NoteInstance.stop`. -/
inductive AudioCmd where
  | cancelScheduledValues (g : GainRef) (t : ℚ)
  | setValueAtTime (g : GainRef) (level : ℚ) (t : ℚ)
  | linearRampToValueAtTime (g : GainRef) (target : ℚ) (t : ℚ)
  | oscStop (i : Nat)
  | lfoStop (i : Nat)
  | disconnect (g : GainRef)
deriving DecidableEq, Repr

/-- One entry of `this.oscillators`: the envelope gain's current level at
stop time (`envGain.gain.value`) and the `releaseTime` (seconds)
recorded at creation. -/
structure OscLayer where
  envLevel : ℚ
  releaseTime : ℚ
deriving DecidableEq, Repr

/-- The state of a `NoteInstance` at the moment `stop()` runs:
the master gain's current level, the resolved master release (ms,
default 500), the oscillator layers, and the number of LFOs. -/
structure NoteInstance where
  noteGainLevel : ℚ
  masterRelease : ℚ
  oscillators : List OscLayer
  lfoCount : Nat
deriving DecidableEq, Repr

/-- `NoteInstance.stop()`: cancel/snapshot/ramp the master gain over the
master release and each layer's envelope gain over its own release, then
schedule (via `setTimeout`) a teardown after `maxRelease * 1000 + 100` ms
that stops every oscillator and LFO.  The result is (immediate commands,
(teardown delay in ms, teardown commands)). -/
def NoteInstance.stop (inst : NoteInstance) (now : ℚ) :
    List AudioCmd × ℚ × List AudioCmd :=
  let masterReleaseTime := inst.masterRelease / 1000
  let masterCmds : List AudioCmd :=
    [.cancelScheduledValues .noteGain now,
     .setValueAtTime .noteGain inst.noteGainLevel now,
     .linearRampToValueAtTime .noteGain 0 (now + masterReleaseTime)]
  let oscCmds : List AudioCmd :=
    inst.oscillators.enum.flatMap fun p =>
      [.cancelScheduledValues (.envGain p.1) now,
       .setValueAtTime (.envGain p.1) p.2.envLevel now,
       .linearRampToValueAtTime (.envGain p.1) 0 (now + p.2.releaseTime)]
  let maxRelease := (inst.oscillators.map OscLayer.releaseTime).foldl max masterReleaseTime
  let teardown :=
    (List.range inst.oscillators.length).map AudioCmd.oscStop ++
    (List.range inst.lfoCount).map AudioCmd.lfoStop
  (masterCmds ++ oscCmds, maxRelease * 1000 + 100, teardown)

/-! ### Distortion stage (`_makeDistortionCurve`, `_createDistortionNode`) -/

/-- `_makeDistortionCurve(drive)` sampled at index `i` (of 44100 samples):
`x = (i * 2) / samples - 1`; identity when `amount == 0`, otherwise
`x * (1 - amount) + saturated * amount` with
`saturated = tanh(k * x) / tanh(k)`, `k = amount * 50`. -/
noncomputable def distortionCurve (drive : ℚ) (i : ℕ) : ℝ :=
  let amount : ℚ := drive / 100
  let x : ℚ := ((i : ℚ) * 2) / 44100 - 1
  if amount = 0 then (x : ℝ)
  else
    let k : ℚ := amount * 50
    let saturated : ℝ := Real.tanh ((k : ℝ) * (x : ℝ)) / Real.tanh (k : ℝ)
    (x : ℝ) * (1 - (amount : ℝ)) + saturated * (amount : ℝ)

/-- The nodes of the wet/dry routing graph built by
`_createDistortionNode`. -/
inductive DNode where
  | input
  | output
  | wet
  | dry
  | waveshaper
deriving DecidableEq, Repr

/-- The distortion chain `{ input, output }` with its gain values, curve,
and `connect` calls. -/
structure DistortionNode where
  wetGainValue : ℚ
  dryGainValue : ℚ
  compensation : ℚ
  curve : ℕ → ℝ
  connections : List (DNode × DNode)

/-- `_createDistortionNode`: `wetGain = mix/100`, `dryGain = 1 - mix/100`,
waveshaper curve from the drive, output gain scaled by the compensation
`1 - (drive / 100) * 0.5`, connected as input → dry → output and
input → waveshaper → wet → output. -/
noncomputable def createDistortionNode (drive mix : ℚ) : DistortionNode :=
  { wetGainValue := mix / 100,
    dryGainValue := 1 - mix / 100,
    compensation := 1 - drive / 100 * (1 / 2),
    curve := distortionCurve drive,
    connections := [(.input, .dry), (.dry, .output),
                    (.input, .waveshaper), (.waveshaper, .wet), (.wet, .output)] }

/-! ### Helper lemmas -/

/-- `_parseNoteWithModifiers` always returns `slideTo = null`. -/
theorem parseNoteWithModifiers_slideTo {t : String} {n : NoteEvent}
    (h : parseNoteWithModifiers t = some n) : n.slideTo = none := by
  unfold parseNoteWithModifiers at h
  repeat' split at h
  all_goals first
    | exact Option.noConfusion h
    | (obtain rfl := Option.some.inj h; rfl)

/-- A successful `_parseNoteWithModifiers` starts from a successful match
of the note-head group, and the MIDI number is computed by
`_noteToFrequency` from the matched letter, accidental, and octave digit. -/
theorem parseNoteWithModifiers_midi {t : String} {n : NoteEvent}
    (h : parseNoteWithModifiers t = some n) :
    ∃ letter acc digit rest, matchNoteHead t.data = some (letter, acc, digit, rest) ∧
      n.midi = noteToMidi letter acc (digit.toNat - '0'.toNat) := by
  unfold parseNoteWithModifiers at h
  repeat' split at h
  all_goals first
    | exact Option.noConfusion h
    | (obtain rfl := Option.some.inj h; exact ⟨_, _, _, _, by assumption, rfl⟩)

theorem applySequenceLine_tracks (st : ParserSt) (tokens : List String) :
    ∀ tr ∈ (applySequenceLine st (tokens.map parseStep)).revTracks,
      tr ∈ st.revTracks ∨ stepsFromTokens tr := by
  intro tr h
  unfold applySequenceLine at h
  by_cases hc : st.hasCurrent = true
  · rw [if_pos hc] at h
    cases hrev : st.revTracks with
    | nil => rw [hrev] at h; exact .inl (hrev ▸ h)
    | cons t ts =>
      rw [hrev] at h
      rcases List.mem_cons.mp h with h | h
      · exact .inr ⟨tokens, by subst h; rfl⟩
      · exact .inl (List.mem_cons_of_mem _ h)
  · rw [if_neg hc] at h
    rcases List.mem_cons.mp h with h | h
    · exact .inr ⟨tokens, by subst h; rfl⟩
    · exact .inl h

theorem parseDirectiveLine_tracks (st : ParserSt) (trimmed : String) :
    ∀ tr ∈ (parseDirectiveLine st trimmed).revTracks,
      tr ∈ st.revTracks ∨ stepsFromTokens tr := by
  intro tr h
  unfold parseDirectiveLine at h
  cases hb : matchBpmLine trimmed with
  | some v => rw [hb] at h; exact .inl h
  | none =>
  rw [hb] at h
  cases hs : matchSwingLine trimmed with
  | some v => rw [hs] at h; exact .inl h
  | none =>
  rw [hs] at h
  cases ho : matchKeywordLine "oscillator" trimmed with
  | some p =>
    rw [ho] at h
    rcases List.mem_cons.mp h with h | h
    · exact .inr ⟨[], by subst h; rfl⟩
    · exact .inl h
  | none =>
  rw [ho] at h
  cases hq : matchKeywordLine "sequence" trimmed with
  | none => rw [hq] at h; exact .inl h
  | some p =>
    rw [hq] at h
    exact applySequenceLine_tracks st _ tr h

theorem parseLine_tracks (st : ParserSt) (l : String) :
    ∀ tr ∈ (parseLine st l).revTracks, tr ∈ st.revTracks ∨ stepsFromTokens tr := by
  intro tr h
  unfold parseLine at h
  by_cases h0 : String.mk (trimChars l.data) = "" ∨
      (String.mk (trimChars l.data)).data.head? = some '#'
  · rw [if_pos h0] at h; exact .inl h
  · rw [if_neg h0] at h; exact parseDirectiveLine_tracks st _ tr h

theorem foldl_parseLine_tracks :
    ∀ (lines : List String) (st : ParserSt),
      (∀ tr ∈ st.revTracks, stepsFromTokens tr) →
      ∀ tr ∈ (lines.foldl parseLine st).revTracks, stepsFromTokens tr := by
  intro lines
  induction lines with
  | nil => intro st h; exact h
  | cons l ls ih =>
    intro st h tr hmem
    refine ih (parseLine st l) ?_ tr hmem
    intro tr' h'
    rcases parseLine_tracks st l tr' h' with h1 | h2
    · exact h tr' h1
    · exact h2

theorem applySequenceLine_swing (st : ParserSt) (steps : List Step) :
    (applySequenceLine st steps).swing = st.swing := by
  unfold applySequenceLine
  by_cases hc : st.hasCurrent = true
  · rw [if_pos hc]
    cases hrev : st.revTracks with
    | nil => rfl
    | cons t ts => rfl
  · rw [if_neg hc]

theorem parseDirectiveLine_swing (st : ParserSt) (trimmed : String) (h : st.swing ≤ 100) :
    (parseDirectiveLine st trimmed).swing ≤ 100 := by
  unfold parseDirectiveLine
  cases hb : matchBpmLine trimmed with
  | some v => exact h
  | none =>
  cases hs : matchSwingLine trimmed with
  | some v => exact Nat.max_le.mpr ⟨Nat.zero_le _, Nat.min_le_left _ _⟩
  | none =>
  cases ho : matchKeywordLine "oscillator" trimmed with
  | some p => exact h
  | none =>
  cases hq : matchKeywordLine "sequence" trimmed with
  | none => exact h
  | some p => rw [applySequenceLine_swing]; exact h

theorem parseLine_swing (st : ParserSt) (l : String) (h : st.swing ≤ 100) :
    (parseLine st l).swing ≤ 100 := by
  unfold parseLine
  by_cases h0 : String.mk (trimChars l.data) = "" ∨
      (String.mk (trimChars l.data)).data.head? = some '#'
  · rw [if_pos h0]; exact h
  · rw [if_neg h0]; exact parseDirectiveLine_swing st _ h

theorem foldl_parseLine_swing :
    ∀ (lines : List String) (st : ParserSt), st.swing ≤ 100 →
      (lines.foldl parseLine st).swing ≤ 100 := by
  intro lines
  induction lines with
  | nil => intro st h; exact h
  | cons l ls ih => intro st h; exact ih (parseLine st l) (parseLine_swing st l h)

theorem lookup_isSome_iff (T : NoteTable) (name : String) :
    (T.lookup name).isSome = true ↔ name ∈ T.map Prod.fst := by
  induction T with
  | nil => simp [List.lookup]
  | cons e rest ih =>
    obtain ⟨k, v⟩ := e
    by_cases h : name = k
    · subst h; simp [List.lookup]
    · have hk : (name == k) = false := beq_eq_false_iff_ne.mpr h
      simp [List.lookup, hk, ih, h]

theorem lookup_none_iff (T : NoteTable) (name : String) :
    T.lookup name = none ↔ name ∉ T.map Prod.fst := by
  rw [← lookup_isSome_iff]
  cases h : T.lookup name <;> simp

theorem lookup_append_none {T T' : NoteTable} {name : String}
    (h : (T ++ T').lookup name = none) : T.lookup name = none := by
  rw [lookup_none_iff] at h ⊢
  simp only [List.map_append, List.mem_append] at h
  exact fun hc => h (.inl hc)

theorem startPhase_start_lookup (osc : Option String) :
    ∀ (cur : List NoteEvent) (T : NoteTable) (nid : Nat) (n : NoteEvent)
      (j mv : Nat) (o : Option String),
      SeqEvent.start n j mv o ∈ (startPhase osc T nid cur).1 →
      T.lookup n.noteName = none := by
  intro cur
  induction cur with
  | nil => intro T nid n j mv o h; simp [startPhase] at h
  | cons m rest ih =>
    intro T nid n j mv o h
    unfold startPhase at h
    by_cases hl : (T.lookup m.noteName).isSome = true
    · rw [if_pos hl] at h
      exact ih T nid n j mv o h
    · rw [if_neg hl] at h
      rcases List.mem_cons.mp h with h | h
      · obtain ⟨rfl, -, -, -⟩ := SeqEvent.start.inj h
        exact Option.not_isSome_iff_eq_none.mp hl
      · have h2 := ih _ _ n j mv o h
        cases hmt : m.tie
        · rw [hmt] at h2; exact h2
        · rw [hmt] at h2; exact lookup_append_none h2

theorem startPhase_no_stop (osc : Option String) :
    ∀ (cur : List NoteEvent) (T : NoteTable) (nid j : Nat),
      SeqEvent.stop j ∉ (startPhase osc T nid cur).1 := by
  intro cur
  induction cur with
  | nil => intro T nid j h; simp [startPhase] at h
  | cons m rest ih =>
    intro T nid j h
    unfold startPhase at h
    by_cases hl : (T.lookup m.noteName).isSome = true
    · rw [if_pos hl] at h; exact ih _ _ j h
    · rw [if_neg hl] at h
      rcases List.mem_cons.mp h with h | h
      · exact SeqEvent.noConfusion h
      · exact ih _ _ j h

theorem startPhase_table_mem (osc : Option String) :
    ∀ (cur : List NoteEvent) (T : NoteTable) (nid : Nat) (e : String × Nat),
      e ∈ (startPhase osc T nid cur).2.1 → e ∈ T ∨ nid ≤ e.2 := by
  intro cur
  induction cur with
  | nil => intro T nid e h; simp [startPhase] at h; exact .inl h
  | cons m rest ih =>
    intro T nid e h
    unfold startPhase at h
    by_cases hl : (T.lookup m.noteName).isSome = true
    · rw [if_pos hl] at h; exact ih T nid e h
    · rw [if_neg hl] at h
      rcases ih _ _ e h with h2 | h2
      · cases hmt : m.tie
        · rw [hmt] at h2; exact .inl h2
        · rw [hmt] at h2
          rcases List.mem_append.mp h2 with h3 | h3
          · exact .inl h3
          · right
            obtain rfl := List.mem_singleton.mp h3
            exact le_refl _
      · exact .inr (Nat.le_of_succ_le h2)

theorem startPhase_table_preserved (osc : Option String) :
    ∀ (cur : List NoteEvent) (T : NoteTable) (nid : Nat) (e : String × Nat),
      e ∈ T → e ∈ (startPhase osc T nid cur).2.1 := by
  intro cur
  induction cur with
  | nil => intro T nid e h; simpa [startPhase] using h
  | cons m rest ih =>
    intro T nid e h
    unfold startPhase
    by_cases hl : (T.lookup m.noteName).isSome = true
    · rw [if_pos hl]; exact ih T nid e h
    · rw [if_neg hl]
      apply ih
      cases hmt : m.tie
      · simpa [hmt] using h
      · simp only [hmt, if_true]
        exact List.mem_append_left _ h

theorem startPhase_table_names (osc : Option String) :
    ∀ (cur : List NoteEvent) (T : NoteTable) (nid : Nat) (a : String),
      a ∈ (startPhase osc T nid cur).2.1.map Prod.fst ↔
        a ∈ T.map Prod.fst ∨ ∃ n, n ∈ cur ∧ n.noteName = a ∧ n.tie = true := by
  intro cur
  induction cur with
  | nil => intro T nid a; simp [startPhase]
  | cons m rest ih =>
    intro T nid a
    have hcons : (∃ n, n ∈ m :: rest ∧ n.noteName = a ∧ n.tie = true) ↔
        ((m.noteName = a ∧ m.tie = true) ∨
          ∃ n, n ∈ rest ∧ n.noteName = a ∧ n.tie = true) := by
      constructor
      · rintro ⟨n, hn, h1, h2⟩
        rcases List.mem_cons.mp hn with rfl | hn
        · exact .inl ⟨h1, h2⟩
        · exact .inr ⟨n, hn, h1, h2⟩
      · rintro (⟨h1, h2⟩ | ⟨n, hn, h1, h2⟩)
        · exact ⟨m, List.mem_cons_self _ _, h1, h2⟩
        · exact ⟨n, List.mem_cons_of_mem _ hn, h1, h2⟩
    rw [hcons]
    unfold startPhase
    by_cases hl : (T.lookup m.noteName).isSome = true
    · rw [if_pos hl, ih]
      have hmem := (lookup_isSome_iff T m.noteName).mp hl
      constructor
      · rintro (h | h)
        · exact .inl h
        · exact .inr (.inr h)
      · rintro (h | ⟨h1, h2⟩ | h)
        · exact .inl h
        · exact .inl (h1 ▸ hmem)
        · exact .inr h
    · rw [if_neg hl]
      by_cases hmt : m.tie = true
      · rw [if_pos hmt, ih]
        have happ : a ∈ (T ++ [(m.noteName, nid)]).map Prod.fst ↔
            (a ∈ T.map Prod.fst ∨ a = m.noteName) := by
          simp [List.map_append]
        rw [happ]
        constructor
        · rintro ((h | h) | h)
          · exact .inl h
          · exact .inr (.inl ⟨h.symm, hmt⟩)
          · exact .inr (.inr h)
        · rintro (h | ⟨h1, h2⟩ | h)
          · exact .inl (.inl h)
          · exact .inl (.inr h1.symm)
          · exact .inr h
      · rw [if_neg hmt, ih]
        constructor
        · rintro (h | h)
          · exact .inl h
          · exact .inr (.inr h)
        · rintro (h | ⟨h1, h2⟩ | h)
          · exact .inl h
          · exact absurd h2 hmt
          · exact .inr h

theorem stopPhase_eq (prevNotes curNotes : List NoteEvent) :
    ∀ T : NoteTable,
      stopPhase prevNotes curNotes T =
        ((T.filter (fun e => !(shouldContinue prevNotes curNotes e.1))).map
           (fun e => SeqEvent.stop e.2),
         T.filter (fun e => shouldContinue prevNotes curNotes e.1)) := by
  intro T
  induction T with
  | nil => rfl
  | cons e rest ih =>
    unfold stopPhase
    rw [ih]
    cases hsc : shouldContinue prevNotes curNotes e.1 <;>
      simp [hsc, List.filter_cons]

theorem stop_events_count {table : NoteTable} {prevNotes curNotes : List NoteEvent}
    {name : String} {id : Nat}
    (hmem : (name, id) ∈ table) (hnodup : (table.map Prod.snd).Nodup)
    (hsc : shouldContinue prevNotes curNotes name = false) :
    ((table.filter (fun e => !(shouldContinue prevNotes curNotes e.1))).map
        (fun e => SeqEvent.stop e.2)).count (SeqEvent.stop id) = 1 := by
  have hmap : (table.filter (fun e => !(shouldContinue prevNotes curNotes e.1))).map
      (fun e => SeqEvent.stop e.2) =
      ((table.filter (fun e => !(shouldContinue prevNotes curNotes e.1))).map
        Prod.snd).map SeqEvent.stop := by
    rw [List.map_map]; rfl
  rw [hmap, List.count_map_of_injective _ SeqEvent.stop
    (fun a b h => by injection h)]
  apply List.count_eq_one_of_mem
  · exact List.Nodup.sublist (List.Sublist.map _ (List.filter_sublist _)) hnodup
  · exact List.mem_map_of_mem Prod.snd (List.mem_filter.mpr ⟨hmem, by simp [hsc]⟩)

/-- The per-voice tie/continuation contract of one tick of one track,
stated on the stop-then-start pipeline of `_playCurrentStep`. -/
theorem tickPair_spec (osc : Option String) (prevNotes curNotes : List NoteEvent)
    (table : NoteTable) (nextId : Nat) (name : String) (id : Nat)
    (hmem : (name, id) ∈ table)
    (hnodup : (table.map Prod.snd).Nodup)
    (hfresh : ∀ e ∈ table, e.2 < nextId) :
    (shouldContinue prevNotes curNotes name = true →
       (name, id) ∈ (startPhase osc (stopPhase prevNotes curNotes table).2 nextId curNotes).2.1 ∧
       SeqEvent.stop id ∉
         (stopPhase prevNotes curNotes table).1 ++
           (startPhase osc (stopPhase prevNotes curNotes table).2 nextId curNotes).1 ∧
       (∀ n j mv o, SeqEvent.start n j mv o ∈
           (stopPhase prevNotes curNotes table).1 ++
             (startPhase osc (stopPhase prevNotes curNotes table).2 nextId curNotes).1 →
           n.noteName ≠ name)) ∧
    (shouldContinue prevNotes curNotes name = false →
       ((stopPhase prevNotes curNotes table).1 ++
           (startPhase osc (stopPhase prevNotes curNotes table).2 nextId curNotes).1).count
           (SeqEvent.stop id) = 1 ∧
       (name, id) ∉
         (startPhase osc (stopPhase prevNotes curNotes table).2 nextId curNotes).2.1) := by
  have hsp := stopPhase_eq prevNotes curNotes table
  have hs1 : (stopPhase prevNotes curNotes table).1 =
      (table.filter (fun e => !(shouldContinue prevNotes curNotes e.1))).map
        (fun e => SeqEvent.stop e.2) := by rw [hsp]
  have hs2 : (stopPhase prevNotes curNotes table).2 =
      table.filter (fun e => shouldContinue prevNotes curNotes e.1) := by rw [hsp]
  constructor
  · intro hsc
    have hkeep : (name, id) ∈ table.filter
        (fun e => shouldContinue prevNotes curNotes e.1) :=
      List.mem_filter.mpr ⟨hmem, by simp [hsc]⟩
    refine ⟨?_, ?_, ?_⟩
    · exact startPhase_table_preserved osc curNotes _ nextId (name, id)
        (by rw [hs2]; exact hkeep)
    · intro hstop
      rcases List.mem_append.mp hstop with h | h
      · rw [hs1] at h
        obtain ⟨e, he, heq⟩ := List.mem_map.mp h
        obtain ⟨heT, hepred⟩ := List.mem_filter.mp he
        have hid : e.2 = id := by injection heq
        have := List.inj_on_of_nodup_map hnodup heT hmem hid
        rw [this] at hepred
        simp [hsc] at hepred
      · exact startPhase_no_stop osc curNotes _ nextId id h
    · intro n j mv o hstart
      rcases List.mem_append.mp hstart with h | h
      · rw [hs1] at h
        obtain ⟨e, -, heq⟩ := List.mem_map.mp h
        exact SeqEvent.noConfusion heq
      · intro hname
        have hnone := startPhase_start_lookup osc curNotes _ nextId n j mv o h
        rw [lookup_none_iff, hs2] at hnone
        exact hnone (hname ▸ List.mem_map_of_mem Prod.fst hkeep)
  · intro hsc
    constructor
    · rw [List.count_append, hs1,
        stop_events_count hmem hnodup hsc,
        List.count_eq_zero_of_not_mem (startPhase_no_stop osc curNotes _ nextId id)]
    · intro hmem'
      rcases startPhase_table_mem osc curNotes _ nextId (name, id) hmem' with h | h
      · rw [hs2] at h
        have := (List.mem_filter.mp h).2
        simp [hsc] at this
      · exact absurd (hfresh (name, id) hmem) (by omega)

theorem filter_names_mem (table : NoteTable) (p : String → Bool) (a : String) :
    a ∈ (table.filter (fun e => p e.1)).map Prod.fst ↔
      a ∈ table.map Prod.fst ∧ p a = true := by
  constructor
  · intro h
    obtain ⟨e, he, rfl⟩ := List.mem_map.mp h
    obtain ⟨heT, hp⟩ := List.mem_filter.mp he
    exact ⟨List.mem_map_of_mem _ heT, hp⟩
  · rintro ⟨h, hp⟩
    obtain ⟨e, he, rfl⟩ := List.mem_map.mp h
    exact List.mem_map_of_mem _ (List.mem_filter.mpr ⟨he, hp⟩)

/-- The note names of a track's table after one tick, as a function of
the old names, the continuation predicate, and the tied current notes. -/
theorem tickTrack_names (track : Track) (i : Nat) (table : NoteTable) (nid : Nat)
    (a : String) :
    a ∈ (tickTrack track i table nid).2.1.map Prod.fst ↔
      ((a ∈ table.map Prod.fst ∧
          shouldContinue (getStepNotes (prevStepAt track.steps i))
            (getStepNotes (trackStepAt track.steps i)) a = true) ∨
        ∃ n, n ∈ getStepNotes (trackStepAt track.steps i) ∧
          n.noteName = a ∧ n.tie = true) := by
  show a ∈ (startPhase track.oscillator
      (stopPhase (getStepNotes (prevStepAt track.steps i))
        (getStepNotes (trackStepAt track.steps i)) table).2 nid
      (getStepNotes (trackStepAt track.steps i))).2.1.map Prod.fst ↔ _
  rw [startPhase_table_names]
  have hs2 : (stopPhase (getStepNotes (prevStepAt track.steps i))
      (getStepNotes (trackStepAt track.steps i)) table).2 =
      table.filter (fun e => shouldContinue (getStepNotes (prevStepAt track.steps i))
        (getStepNotes (trackStepAt track.steps i)) e.1) := by
    rw [stopPhase_eq]
  rw [hs2, filter_names_mem]

/-- Replaying the same step (as `setBpm` does through `_startInterval`)
leaves the set of note names in a track's table unchanged. -/
theorem tickTrack_names_idempotent (track : Track) (i : Nat) (table : NoteTable)
    (nid : Nat) (a : String) :
    (a ∈ (tickTrack track i (tickTrack track i table nid).2.1
        (tickTrack track i table nid).2.2).2.1.map Prod.fst) ↔
      a ∈ (tickTrack track i table nid).2.1.map Prod.fst := by
  rw [tickTrack_names, tickTrack_names]
  tauto

/-- At a tick with `currentStep == 0` the previous step is forced to a
rest, so nothing can continue: every table entry is stopped and the new
table holds only freshly started voices. -/
theorem tickTrack_step0 (track : Track) (table : NoteTable) (nid : Nat) :
    (∀ e ∈ table, SeqEvent.stop e.2 ∈ (tickTrack track 0 table nid).1) ∧
    (∀ e ∈ table, e.2 < nid → e ∉ (tickTrack track 0 table nid).2.1) := by
  have hprev : getStepNotes (prevStepAt track.steps 0) = [] := rfl
  have hsc : ∀ name, shouldContinue (getStepNotes (prevStepAt track.steps 0))
      (getStepNotes (trackStepAt track.steps 0)) name = false := by
    intro name; rw [hprev]; rfl
  have hsp := stopPhase_eq (getStepNotes (prevStepAt track.steps 0))
    (getStepNotes (trackStepAt track.steps 0)) table
  have hfilter_all : table.filter (fun e => !(shouldContinue
      (getStepNotes (prevStepAt track.steps 0))
      (getStepNotes (trackStepAt track.steps 0)) e.1)) = table :=
    List.filter_eq_self.mpr (fun e _ => by simp [hsc])
  have hfilter_none : table.filter (fun e => shouldContinue
      (getStepNotes (prevStepAt track.steps 0))
      (getStepNotes (trackStepAt track.steps 0)) e.1) = [] :=
    List.filter_eq_nil_iff.mpr (fun e _ => by simp [hsc])
  constructor
  · intro e he
    apply List.mem_append_left
    show SeqEvent.stop e.2 ∈ (stopPhase _ _ table).1
    rw [hsp, hfilter_all]
    exact List.mem_map_of_mem _ he
  · intro e he hlt hmem
    have hmem' : e ∈ (startPhase track.oscillator (stopPhase _ _ table).2 nid
        (getStepNotes (trackStepAt track.steps 0))).2.1 := hmem
    rcases startPhase_table_mem _ _ _ _ e hmem' with h | h
    · rw [hsp] at h
      simp only [hfilter_none] at h
      exact List.not_mem_nil e h
    · omega

theorem parse_steps_from_tokens (text : String) :
    ∀ tr ∈ (parse text).tracks, stepsFromTokens tr := by
  intro tr h
  have h' : tr ∈ (((splitOnChar '\n' text.data).map String.mk).foldl parseLine
      ⟨120, 50, [], false⟩).revTracks := by
    have : tr ∈ (((splitOnChar '\n' text.data).map String.mk).foldl parseLine
        ⟨120, 50, [], false⟩).revTracks.reverse := h
    exact List.mem_reverse.mp this
  exact foldl_parseLine_tracks _ _ (by intro tr' h0; exact absurd h0 (List.not_mem_nil tr'))
    tr h'

/-! ### Claims -/

/-- C1: at every tick, for every note name in a track's active-voice
table, the voice continues (entry untouched, no stop of its handle, no
start of that name) iff the previous step's voice of that name was tied
and the current step has a voice of that name; otherwise exactly one
stop is issued and its entry is removed.  Consequently `c4~ c4` issues
one start at step 0, nothing at step 1, and one stop only when the chain
breaks (here at the wrap), and the chord pair `[c4~,e4~,g4]`
`[c4~,e4~,a4]` continues c4 and e4 (no events for them at the second
tick, entries `("c4",0)`/`("e4",1)` unchanged) while starting a4; g4
(untied) was started with a time-limited duration
(`noteDuration < stepDuration`) and owns no table entry, so it ends
rather than continuing. -/
theorem tie_continuation_contract :
    (∀ (track : Track) (i : Nat) (table : NoteTable) (nextId : Nat)
       (name : String) (id : Nat),
      (name, id) ∈ table →
      (table.map Prod.snd).Nodup →
      (∀ e ∈ table, e.2 < nextId) →
      (shouldContinue (getStepNotes (prevStepAt track.steps i))
          (getStepNotes (trackStepAt track.steps i)) name = true →
        (name, id) ∈ (tickTrack track i table nextId).2.1 ∧
        SeqEvent.stop id ∉ (tickTrack track i table nextId).1 ∧
        (∀ n j mv o, SeqEvent.start n j mv o ∈ (tickTrack track i table nextId).1 →
          n.noteName ≠ name)) ∧
      (shouldContinue (getStepNotes (prevStepAt track.steps i))
          (getStepNotes (trackStepAt track.steps i)) name = false →
        (tickTrack track i table nextId).1.count (SeqEvent.stop id) = 1 ∧
        (name, id) ∉ (tickTrack track i table nextId).2.1)) ∧
    ((play (loadedState (parse "oscillator lead\nsequence c4~ c4"))).1 =
        [SeqEvent.start ⟨"c4", 60, 100, 100, true, none⟩ 0 127 (some "lead")] ∧
      (intervalTick (play (loadedState (parse "oscillator lead\nsequence c4~ c4"))).2).1 = [] ∧
      (intervalTick (intervalTick
          (play (loadedState (parse "oscillator lead\nsequence c4~ c4"))).2).2).1 =
        [SeqEvent.stop 0,
         SeqEvent.start ⟨"c4", 60, 100, 100, true, none⟩ 1 127 (some "lead")]) ∧
    ((play (loadedState (parse "oscillator lead\nsequence [c4~,e4~,g4] [c4~,e4~,a4]"))).1 =
        [SeqEvent.start ⟨"c4", 60, 100, 100, true, none⟩ 0 127 (some "lead"),
         SeqEvent.start ⟨"e4", 64, 100, 100, true, none⟩ 1 127 (some "lead"),
         SeqEvent.start ⟨"g4", 67, 100, 100, false, none⟩ 2 127 (some "lead")] ∧
      (intervalTick (play (loadedState
          (parse "oscillator lead\nsequence [c4~,e4~,g4] [c4~,e4~,a4]"))).2).1 =
        [SeqEvent.start ⟨"a4", 69, 100, 100, false, none⟩ 3 127 (some "lead")] ∧
      (intervalTick (play (loadedState
          (parse "oscillator lead\nsequence [c4~,e4~,g4] [c4~,e4~,a4]"))).2).2.activeNotes =
        [("lead", [("c4", 0), ("e4", 1)])] ∧
      noteDuration (stepDurationOf 120) 100 < stepDurationOf 120) := by
  refine ⟨?_, by decide, by decide, by decide, by decide, ?_⟩
  · intro track i table nextId name id hmem hnodup hfresh
    exact tickPair_spec track.oscillator _ _ table nextId name id hmem hnodup hfresh
  · show stepDurationOf 120 * ((100 : ℚ) / 100) * (9 / 10) < stepDurationOf 120
    norm_num [stepDurationOf]

/-- C1 witness: the contract applied to the concrete table
`[("c4", 0)]` at a step-0 tick of a track with no steps: the voice
cannot continue, so exactly one stop for handle 0 is issued and the
entry is removed. -/
theorem tie_continuation_contract_witness :
    (("c4", 0) : String × Nat) ∈ ([("c4", 0)] : NoteTable) ∧
    (tickTrack ⟨some "x", []⟩ 0 [("c4", 0)] 1).1.count (SeqEvent.stop 0) = 1 ∧
    ("c4", 0) ∉ (tickTrack ⟨some "x", []⟩ 0 [("c4", 0)] 1).2.1 := by
  refine ⟨by decide, ?_⟩
  have h := (tie_continuation_contract.1 ⟨some "x", []⟩ 0 [("c4", 0)] 1 "c4" 0
    (by decide) (by decide) (by decide)).2 (by decide)
  exact h

/-- C2: the parsed MIDI number follows the documented semitone map
(`+1` only for the literal accidental `'#'`, `-1` only for the literal
`'b'`) with `midi = (octave+1)*12 + semitone`, and the frequency is
`440 * 2^((midi-69)/12)`; `a4` parses to exactly 440 Hz and `c4` to
261.63 Hz within ±0.01. -/
theorem note_frequency_formula :
    (∀ (letter : Char) (acc : Option Char) (octave : Nat),
       freqOfMidi (noteToMidi letter acc octave) =
         440 * (2 : ℝ) ^ ((((((octave : Int) + 1) * 12 + noteMap letter.toLower +
             (if acc = some '#' then 1 else 0) -
             (if acc = some 'b' then 1 else 0) : Int) : ℝ) - 69) / 12)) ∧
    (∀ (t : String) (n : NoteEvent), parseNoteWithModifiers t = some n →
       ∃ letter acc digit rest, matchNoteHead t.data = some (letter, acc, digit, rest) ∧
         n.midi = noteToMidi letter acc (digit.toNat - '0'.toNat)) ∧
    (∃ n, parseNoteWithModifiers "a4" = some n ∧ freqOfMidi n.midi = 440) ∧
    (∃ n, parseNoteWithModifiers "c4" = some n ∧ |freqOfMidi n.midi - 261.63| ≤ 0.01) := by
  have h2pos : (0 : ℝ) < 2 := by norm_num
  refine ⟨?_, fun t n h => parseNoteWithModifiers_midi h, ?_, ?_⟩
  · intro letter acc octave
    have hmid : noteToMidi letter acc octave =
        ((octave : Int) + 1) * 12 + noteMap letter.toLower +
          (if acc = some '#' then 1 else 0) - (if acc = some 'b' then 1 else 0) := by
      simp only [noteToMidi]
      split_ifs <;> ring
    rw [hmid]
    rfl
  · refine ⟨⟨"a4", 69, 100, 100, false, none⟩, by decide, ?_⟩
    show (440 : ℝ) * (2 : ℝ) ^ ((((69 : Int) : ℝ) - 69) / 12) = 440
    have hE : ((((69 : Int) : ℝ)) - 69) / 12 = 0 := by norm_num
    rw [hE, Real.rpow_zero, mul_one]
  · refine ⟨⟨"c4", 60, 100, 100, false, none⟩, by decide, ?_⟩
    show |(440 : ℝ) * (2 : ℝ) ^ ((((60 : Int) : ℝ) - 69) / 12) - 261.63| ≤ 0.01
    have hy4 : ((2 : ℝ) ^ ((3 : ℝ) / 4)) ^ (4 : ℕ) = 8 := by
      rw [← Real.rpow_natCast ((2 : ℝ) ^ ((3 : ℝ) / 4)) 4,
          ← Real.rpow_mul (le_of_lt h2pos)]
      have h34 : (3 : ℝ) / 4 * ((4 : ℕ) : ℝ) = ((3 : ℕ) : ℝ) := by push_cast; ring
      rw [h34, Real.rpow_natCast]
      norm_num
    have hypos : (0 : ℝ) < (2 : ℝ) ^ ((3 : ℝ) / 4) := Real.rpow_pos_of_pos h2pos _
    have hlow : (1.68171 : ℝ) < (2 : ℝ) ^ ((3 : ℝ) / 4) := by
      apply lt_of_pow_lt_pow_left₀ 4 (le_of_lt hypos)
      rw [hy4]
      norm_num
    have hhigh : (2 : ℝ) ^ ((3 : ℝ) / 4) < 1.68182 := by
      apply lt_of_pow_lt_pow_left₀ 4 (by norm_num : (0 : ℝ) ≤ 1.68182)
      rw [hy4]
      norm_num
    have hE : ((((60 : Int) : ℝ)) - 69) / 12 = -((3 : ℝ) / 4) := by norm_num
    rw [hE, Real.rpow_neg (le_of_lt h2pos), ← div_eq_mul_inv]
    have hub : (440 : ℝ) / ((2 : ℝ) ^ ((3 : ℝ) / 4)) < 440 / 1.68171 :=
      div_lt_div_of_pos_left (by norm_num) (by norm_num) hlow
    have hlb : (440 : ℝ) / 1.68182 < 440 / ((2 : ℝ) ^ ((3 : ℝ) / 4)) :=
      div_lt_div_of_pos_left (by norm_num) hypos hhigh
    rw [abs_le]
    constructor
    · have : (261.62 : ℝ) ≤ 440 / 1.68182 := by norm_num
      linarith
    · have : (440 : ℝ) / 1.68171 ≤ 261.64 := by norm_num
      linarith

/-- C2 witness: the formula instantiated at the token `c4`. -/
theorem note_frequency_formula_witness :
    ∃ letter acc digit rest, matchNoteHead "c4".data = some (letter, acc, digit, rest) ∧
      (NoteEvent.mk "c4" 60 100 100 false none).midi =
        noteToMidi letter acc (digit.toNat - '0'.toNat) :=
  note_frequency_formula.2.1 "c4" (NoteEvent.mk "c4" 60 100 100 false none) (by decide)

/-- C3: a slide token whose two sides parse as notes yields tie = true
and gate = 100 regardless of the literal modifiers on the left side, and
its `slideTo` carries the target's name, frequency (MIDI), and velocity;
in general every parsed note carrying a `slideTo` has tie = true and
gate = 100. -/
theorem slide_invariant :
    (∀ (t : String) (n : NoteEvent), parseSingleNote t = some n →
       n.slideTo ≠ none → n.tie = true ∧ n.gate = 100) ∧
    (∀ (t x y : String) (fx fy : NoteEvent), slideSplit t = some (x, y) →
       parseNoteWithModifiers x = some fx → parseNoteWithModifiers y = some fy →
       parseSingleNote t = some { fx with
         tie := true
         gate := 100
         slideTo := some ⟨fy.noteName, fy.midi, fy.velocity⟩ }) ∧
    (parseSingleNote "c4@80:50~>e4" =
      some ⟨"c4", 60, 80, 100, true, some ⟨"e4", 64, 100⟩⟩) := by
  refine ⟨?_, ?_, by decide⟩
  · intro t n h hs
    unfold parseSingleNote at h
    split at h
    · split at h
      · obtain rfl := Option.some.inj h
        exact ⟨rfl, rfl⟩
      · exact Option.noConfusion h
    · exact absurd (parseNoteWithModifiers_slideTo h) hs
  · intro t x y fx fy hsplit hx hy
    unfold parseSingleNote
    rw [hsplit]
    simp only [hx, hy]

/-- C3 witness: the slide invariant applied to `c4@80:50~>e4` (literal
gate 50 and tie on the left side are overridden). -/
theorem slide_invariant_witness :
    (NoteEvent.mk "c4" 60 80 100 true (some ⟨"e4", 64, 100⟩)).tie = true ∧
    (NoteEvent.mk "c4" 60 80 100 true (some ⟨"e4", 64, 100⟩)).gate = 100 :=
  slide_invariant.1 "c4@80:50~>e4" (NoteEvent.mk "c4" 60 80 100 true (some ⟨"e4", 64, 100⟩))
    (by decide) (by decide)

/-- C4 counterexample: `bpm 999` parses to bpm = 999, outside 60–200,
and `c4@150:200` parses with velocity 150 and gate 200, outside 0–100:
out-of-range bpm, velocity, and gate are not clamped. -/
theorem range_clamping_counterexample :
    ¬(60 ≤ (parse "bpm 999").bpm ∧ (parse "bpm 999").bpm ≤ 200) ∧
    (parse "oscillator x\nsequence c4@150:200").tracks =
      [⟨some "x", [Step.note ⟨"c4", 60, 150, 200, false, none⟩]⟩] ∧
    ¬((150 : Nat) ≤ 100 ∧ (200 : Nat) ≤ 100) := by
  decide

/-- C4 amended: only swing is clamped (to 0–100) at parse time; bpm,
velocity, and gate are parsed literally — out-of-range values pass
through unchanged, and none are rejected. -/
theorem range_clamping_amended :
    (∀ text : String, (parse text).swing ≤ 100) ∧
    ((parse "swing 150").swing = 100 ∧ (parse "swing 7").swing = 7) ∧
    ((parse "bpm 999").bpm = 999 ∧ (parse "bpm 1").bpm = 1) ∧
    (∃ n, parseNoteWithModifiers "c4@150:200" = some n ∧
       n.velocity = 150 ∧ n.gate = 200) := by
  refine ⟨?_, by decide, by decide,
    ⟨⟨"c4", 60, 150, 200, false, none⟩, by decide, rfl, rfl⟩⟩
  intro text
  exact foldl_parseLine_swing _ _ (by norm_num)

/-- C5 counterexample: the chord `[c4,c4]` parses to two NoteEvents with
the same note name, so chord notes are not unique by name. -/
theorem chord_uniqueness_counterexample :
    parseStep "[c4,c4]" = Step.chord
      [⟨"c4", 60, 100, 100, false, none⟩, ⟨"c4", 60, 100, 100, false, none⟩] ∧
    ¬((([⟨"c4", 60, 100, 100, false, none⟩,
         ⟨"c4", 60, 100, 100, false, none⟩] : List NoteEvent).map
        NoteEvent.noteName).Nodup) := by
  decide

/-- C5 amended: a chord token keeps every valid inner note, in order and
without deduplicating names; a chord with no valid notes degrades to a
rest. -/
theorem chord_parsing_amended :
    (∀ t : String, t.data.head? = some '[' → t.data.getLast? = some ']' →
      parseStep t =
        (if ((splitOnChar ',' ((t.data.drop 1).dropLast)).map
              (fun c => parseSingleNote (String.mk (trimChars c)))).reduceOption = []
         then Step.rest
         else Step.chord ((splitOnChar ',' ((t.data.drop 1).dropLast)).map
              (fun c => parseSingleNote (String.mk (trimChars c)))).reduceOption)) ∧
    parseStep "[]" = Step.rest ∧ parseStep "[xx,yy]" = Step.rest := by
  refine ⟨?_, by decide, by decide⟩
  intro t h1 h2
  have hne : t ≠ "-" := by
    intro he
    subst he
    exact absurd h1 (by decide)
  unfold parseStep
  rw [if_neg hne, if_pos ⟨h1, h2⟩]

/-- C5 amended witness: the general chord shape applied to `[c4,c4]`. -/
theorem chord_parsing_amended_witness :
    parseStep "[c4,c4]" =
      (if ((splitOnChar ',' (("[c4,c4]".data.drop 1).dropLast)).map
            (fun c => parseSingleNote (String.mk (trimChars c)))).reduceOption = []
       then Step.rest
       else Step.chord ((splitOnChar ',' (("[c4,c4]".data.drop 1).dropLast)).map
            (fun c => parseSingleNote (String.mk (trimChars c)))).reduceOption) :=
  chord_parsing_amended.1 "[c4,c4]" (by decide) (by decide)

theorem map_set_comm {α β : Type} (f : α → β) :
    ∀ (l : List α) (i : Nat) (a : α), (l.set i a).map f = (l.map f).set i (f a)
  | [], _, _ => by simp
  | _ :: _, 0, _ => by simp
  | x :: xs, n + 1, a => by simp [map_set_comm f xs n a]

/-- C6: an invalid token (not `-`, not a bracketed chord, failing the
note grammar) parses to a Rest; replacing one token of a sequence only
changes the step at its position; and every parsed track's steps are a
per-token map of the parser, so an invalid token affects its own step
only and parsing never fails. -/
theorem invalid_token_degrades :
    (∀ t : String, t ≠ "-" →
       ¬(t.data.head? = some '[' ∧ t.data.getLast? = some ']') →
       parseSingleNote t = none → parseStep t = Step.rest) ∧
    (∀ (tokens : List String) (i : Nat) (bad : String),
       (tokens.set i bad).map parseStep = (tokens.map parseStep).set i (parseStep bad)) ∧
    (∀ text : String, ∀ tr ∈ (parse text).tracks,
       ∃ tokens : List String, tr.steps = tokens.map parseStep) ∧
    parseStep "c5x" = Step.rest := by
  refine ⟨?_, ?_, parse_steps_from_tokens, by decide⟩
  · intro t h1 h2 h3
    unfold parseStep
    rw [if_neg h1, if_neg h2, h3]
  · intro tokens i bad
    exact map_set_comm parseStep tokens i bad

/-- C6 witness: the degradation applied to the invalid token `zzz`. -/
theorem invalid_token_degrades_witness :
    parseStep "zzz" = Step.rest :=
  invalid_token_degrades.1 "zzz" (by decide) (by decide) (by decide)

/-- C7 counterexample: for a voice with master release 500 ms and one
oscillator layer with release 0.5 s, `stop` schedules the teardown at
600 ms (max release plus a 100 ms grace, not at the 500 ms max), and
neither the immediate commands nor the teardown contain a disconnect of
any node — the teardown only stops the oscillator and the LFO, so "every
audio node is disconnected and discarded" fails. -/
theorem voice_stop_counterexample :
    ((NoteInstance.mk 1 500 [⟨1, 1/2⟩] 1).stop 0).2.1 = 600 ∧
    AudioCmd.disconnect GainRef.noteGain ∉
      ((NoteInstance.mk 1 500 [⟨1, 1/2⟩] 1).stop 0).1 ∧
    AudioCmd.disconnect (GainRef.envGain 0) ∉
      ((NoteInstance.mk 1 500 [⟨1, 1/2⟩] 1).stop 0).1 ∧
    AudioCmd.disconnect GainRef.noteGain ∉
      ((NoteInstance.mk 1 500 [⟨1, 1/2⟩] 1).stop 0).2.2 ∧
    AudioCmd.disconnect (GainRef.envGain 0) ∉
      ((NoteInstance.mk 1 500 [⟨1, 1/2⟩] 1).stop 0).2.2 ∧
    ((NoteInstance.mk 1 500 [⟨1, 1/2⟩] 1).stop 0).2.2 =
      [AudioCmd.oscStop 0, AudioCmd.lfoStop 0] := by
  refine ⟨?_, ?_, ?_, ?_, ?_, rfl⟩
  · show (List.foldl max ((500 : ℚ) / 1000) [(1 : ℚ) / 2]) * 1000 + 100 = 600
    have h : (500 : ℚ) / 1000 = 1 / 2 := by norm_num
    simp only [List.foldl, h, max_self]
    norm_num
  all_goals intro h
  all_goals simp [NoteInstance.stop] at h

/-- C7 amended: `stop` cancels scheduled ramps, snapshots the current
level, and ramps linearly to zero over each gain's own release time
(master and per-layer releases independently); the deferred teardown
fires after max(master release, all layer releases) plus a 100 ms grace
and stops every oscillator and LFO — it does not disconnect any node. -/
theorem voice_stop_amended : ∀ (inst : NoteInstance) (now : ℚ),
    (inst.stop now).1 =
      ([.cancelScheduledValues .noteGain now,
        .setValueAtTime .noteGain inst.noteGainLevel now,
        .linearRampToValueAtTime .noteGain 0 (now + inst.masterRelease / 1000)] ++
        inst.oscillators.enum.flatMap (fun p =>
          [.cancelScheduledValues (.envGain p.1) now,
           .setValueAtTime (.envGain p.1) p.2.envLevel now,
           .linearRampToValueAtTime (.envGain p.1) 0 (now + p.2.releaseTime)])) ∧
    (inst.stop now).2.1 =
      ((inst.oscillators.map OscLayer.releaseTime).foldl max (inst.masterRelease / 1000))
        * 1000 + 100 ∧
    (inst.stop now).2.2 =
      (List.range inst.oscillators.length).map AudioCmd.oscStop ++
        (List.range inst.lfoCount).map AudioCmd.lfoStop ∧
    (∀ g, AudioCmd.disconnect g ∉ (inst.stop now).1 ∧
          AudioCmd.disconnect g ∉ (inst.stop now).2.2) := by
  intro inst now
  refine ⟨rfl, rfl, rfl, ?_⟩
  intro g
  constructor
  · intro h
    rcases List.mem_append.mp h with h | h
    · simp at h
    · obtain ⟨p, -, hp⟩ := List.mem_flatMap.mp h
      simp at hp
  · intro h
    rcases List.mem_append.mp h with h | h
    · obtain ⟨j, -, hj⟩ := List.mem_map.mp h
      exact AudioCmd.noConfusion hj
    · obtain ⟨j, -, hj⟩ := List.mem_map.mp h
      exact AudioCmd.noConfusion hj

/-- C8: every sample index maps to x ∈ [-1,1]; the curve equals
`x*(1-amount) + amount*tanh(k*x)/tanh(k)` with the identity fallback at
amount = 0; wet gain = mix/100, dry gain = 1 - mix/100, and both paths
(input → waveshaper → wet → output, input → dry → output) sum into the
output stage whose gain is the compensation `1 - drive/100 * 0.5`. -/
theorem distortion_stage_formula : ∀ (drive mix : ℚ) (i : ℕ), i < 44100 →
    (-1 ≤ (((i : ℚ) * 2) / 44100 - 1 : ℚ) ∧ (((i : ℚ) * 2) / 44100 - 1 : ℚ) ≤ 1) ∧
    (createDistortionNode drive mix).curve i =
      (if drive / 100 = (0 : ℚ) then ((((i : ℚ) * 2) / 44100 - 1 : ℚ) : ℝ)
       else ((((i : ℚ) * 2) / 44100 - 1 : ℚ) : ℝ) * (1 - ((drive / 100 : ℚ) : ℝ)) +
         ((drive / 100 : ℚ) : ℝ) *
           (Real.tanh (((drive / 100 * 50 : ℚ) : ℝ) *
               ((((i : ℚ) * 2) / 44100 - 1 : ℚ) : ℝ)) /
            Real.tanh ((drive / 100 * 50 : ℚ) : ℝ))) ∧
    (createDistortionNode drive mix).wetGainValue = mix / 100 ∧
    (createDistortionNode drive mix).dryGainValue = 1 - mix / 100 ∧
    (createDistortionNode drive mix).compensation = 1 - drive / 100 * (1 / 2) ∧
    ((DNode.input, DNode.waveshaper) ∈ (createDistortionNode drive mix).connections ∧
     (DNode.waveshaper, DNode.wet) ∈ (createDistortionNode drive mix).connections ∧
     (DNode.wet, DNode.output) ∈ (createDistortionNode drive mix).connections ∧
     (DNode.input, DNode.dry) ∈ (createDistortionNode drive mix).connections ∧
     (DNode.dry, DNode.output) ∈ (createDistortionNode drive mix).connections) := by
  intro drive mix i hi
  refine ⟨⟨?_, ?_⟩, ?_, rfl, rfl, rfl,
    by simp [createDistortionNode], by simp [createDistortionNode],
    by simp [createDistortionNode], by simp [createDistortionNode],
    by simp [createDistortionNode]⟩
  · have h0 : (0 : ℚ) ≤ (i : ℚ) * 2 / 44100 := by positivity
    linarith
  · have h2 : (i : ℚ) * 2 / 44100 ≤ 2 := by
      rw [div_le_iff₀ (by norm_num : (0 : ℚ) < 44100)]
      have : (i : ℚ) ≤ 44099 := by exact_mod_cast Nat.le_of_lt_succ hi
      linarith
    linarith
  · show distortionCurve drive i = _
    simp only [distortionCurve]
    split_ifs with h0
    · rfl
    · ring

/-- C8 witness: the curve formula at drive 50, mix 100, sample 0. -/
theorem distortion_stage_formula_witness :
    (-1 ≤ ((((0 : ℕ) : ℚ) * 2) / 44100 - 1 : ℚ) ∧
      ((((0 : ℕ) : ℚ) * 2) / 44100 - 1 : ℚ) ≤ 1) ∧
    (createDistortionNode 50 100).curve 0 =
      (if (50 : ℚ) / 100 = (0 : ℚ)
       then (((((0 : ℕ) : ℚ) * 2) / 44100 - 1 : ℚ) : ℝ)
       else (((((0 : ℕ) : ℚ) * 2) / 44100 - 1 : ℚ) : ℝ) * (1 - (((50 : ℚ) / 100 : ℚ) : ℝ)) +
         (((50 : ℚ) / 100 : ℚ) : ℝ) *
           (Real.tanh ((((50 : ℚ) / 100 * 50 : ℚ) : ℝ) *
               (((((0 : ℕ) : ℚ) * 2) / 44100 - 1 : ℚ) : ℝ)) /
            Real.tanh (((50 : ℚ) / 100 * 50 : ℚ) : ℝ))) ∧
    (createDistortionNode 50 100).wetGainValue = (100 : ℚ) / 100 ∧
    (createDistortionNode 50 100).dryGainValue = 1 - (100 : ℚ) / 100 ∧
    (createDistortionNode 50 100).compensation = 1 - (50 : ℚ) / 100 * (1 / 2) ∧
    ((DNode.input, DNode.waveshaper) ∈ (createDistortionNode 50 100).connections ∧
     (DNode.waveshaper, DNode.wet) ∈ (createDistortionNode 50 100).connections ∧
     (DNode.wet, DNode.output) ∈ (createDistortionNode 50 100).connections ∧
     (DNode.input, DNode.dry) ∈ (createDistortionNode 50 100).connections ∧
     (DNode.dry, DNode.output) ∈ (createDistortionNode 50 100).connections) :=
  distortion_stage_formula 50 100 0 (by norm_num)

/-- C9 counterexample: with the one-step pattern `c4~` playing (voice c4
held under handle 0), `setBpm 140` replays the current step: it issues a
stop for handle 0 and a fresh start with handle 1, and the active-voice
table changes from `[("c4", 0)]` to `[("c4", 1)]` — the tables are not
equal before and after, and an in-flight tied voice received a
stop+restart pair. -/
theorem setBpm_counterexample :
    (play (loadedState (parse "oscillator lead\nsequence c4~"))).2.isPlaying = true ∧
    (play (loadedState (parse "oscillator lead\nsequence c4~"))).2.activeNotes =
      [("lead", [("c4", 0)])] ∧
    (setBpm (play (loadedState (parse "oscillator lead\nsequence c4~"))).2 140).1 =
      [SeqEvent.stop 0,
       SeqEvent.start ⟨"c4", 60, 100, 100, true, none⟩ 1 127 (some "lead")] ∧
    (setBpm (play (loadedState (parse "oscillator lead\nsequence c4~"))).2 140).2.activeNotes =
      [("lead", [("c4", 1)])] := by
  decide

/-- C9 amended: while playing, `setBpm` stores the new bpm, restarts the
tick timer at `stepDurationOf newBpm`, and leaves `currentStep`, the
tracks, and the playing flag unchanged; the replay of the current step
preserves each table's set of note names (tick replay is
name-idempotent), but entries are not pointwise unchanged: a voice that
is not a tie continuation is stopped and retriggered under a fresh
handle. -/
theorem setBpm_amended :
    (∀ (st : SeqState) (newBpm : Nat), st.isPlaying = true →
       (setBpm st newBpm).2.currentStep = st.currentStep ∧
       (setBpm st newBpm).2.bpm = newBpm ∧
       intervalMs (setBpm st newBpm).2 = some (stepDurationOf newBpm) ∧
       (setBpm st newBpm).2.tracks = st.tracks ∧
       (setBpm st newBpm).2.isPlaying = true) ∧
    (∀ (track : Track) (i : Nat) (table : NoteTable) (nid : Nat) (a : String),
       (a ∈ (tickTrack track i (tickTrack track i table nid).2.1
           (tickTrack track i table nid).2.2).2.1.map Prod.fst) ↔
         a ∈ (tickTrack track i table nid).2.1.map Prod.fst) := by
  refine ⟨?_, tickTrack_names_idempotent⟩
  intro st newBpm hplay
  have h : setBpm st newBpm = startInterval { st with bpm := newBpm } := by
    unfold setBpm
    rw [if_pos hplay]
  rw [h]
  unfold startInterval
  exact ⟨rfl, rfl, rfl, rfl, hplay⟩

/-- C9 amended witness: the preserved fields at the concrete playing
state of the `c4~` pattern under `setBpm 140`. -/
theorem setBpm_amended_witness :
    (setBpm (play (loadedState (parse "oscillator lead\nsequence c4~"))).2 140).2.currentStep =
      (play (loadedState (parse "oscillator lead\nsequence c4~"))).2.currentStep ∧
    (setBpm (play (loadedState (parse "oscillator lead\nsequence c4~"))).2 140).2.bpm = 140 ∧
    intervalMs (setBpm (play (loadedState (parse "oscillator lead\nsequence c4~"))).2 140).2 =
      some (stepDurationOf 140) ∧
    (setBpm (play (loadedState (parse "oscillator lead\nsequence c4~"))).2 140).2.tracks =
      (play (loadedState (parse "oscillator lead\nsequence c4~"))).2.tracks ∧
    (setBpm (play (loadedState (parse "oscillator lead\nsequence c4~"))).2 140).2.isPlaying =
      true :=
  setBpm_amended.1 (play (loadedState (parse "oscillator lead\nsequence c4~"))).2 140
    (by decide)

/-- C10: at every tick processed with currentStep = 0 — playback start
and every wrap of the cyclic cursor — the previous step is treated as a
rest, so every entry of every track's table is stopped and removed at
that tick (the new table holds only freshly started voices), even when
the track's final step was tied and step 0 holds the same note name: for
the two-step pattern `c4~ c4~` the wrap tick stops handle 0 and starts a
fresh c4 voice with handle 1 — a tie chain never crosses the wrap. -/
theorem wrap_breaks_ties :
    (∀ (track : Track) (table : NoteTable) (nid : Nat),
       (∀ e ∈ table, SeqEvent.stop e.2 ∈ (tickTrack track 0 table nid).1) ∧
       (∀ e ∈ table, e.2 < nid → e ∉ (tickTrack track 0 table nid).2.1)) ∧
    ((intervalTick (intervalTick
        (play (loadedState (parse "oscillator lead\nsequence c4~ c4~"))).2).2).1 =
      [SeqEvent.stop 0,
       SeqEvent.start ⟨"c4", 60, 100, 100, true, none⟩ 1 127 (some "lead")] ∧
     (intervalTick (intervalTick
        (play (loadedState (parse "oscillator lead\nsequence c4~ c4~"))).2).2).2.currentStep =
       0) :=
  ⟨fun track table nid => tickTrack_step0 track table nid, by decide⟩

/-- C10 witness: the wrap rule applied to a table holding handle 7. -/
theorem wrap_breaks_ties_witness :
    SeqEvent.stop 7 ∈
      (tickTrack ⟨some "x", [Step.note ⟨"c4", 60, 100, 100, true, none⟩]⟩ 0
        [("c4", 7)] 8).1 :=
  (wrap_breaks_ties.1 ⟨some "x", [Step.note ⟨"c4", 60, 100, 100, true, none⟩]⟩
    [("c4", 7)] 8).1 ("c4", 7) (by decide)

end Clarity
